import Mathlib

/-!
Verification of the CSV-upload / webhook-dispatch / result-rendering pipeline
implemented in `src/app/page.tsx` (function `CompanyScraperUpload`, with its
near-identical variant in the second source file).

The embedding translates the functional core of the component:

* the ingestor (`handleUpload` lines 71-88): Papa.parse rows are filtered by
  JavaScript truthiness of the `Company Name` and `Region` columns, trimmed,
  and given `maxResults := parseInt(row['Max Results']) || 20`;
* the dispatch / response handling (lines 96-148): HTTP status check,
  `status === 'success' && profiles` check, error messages, and the
  `finally` block that resets the loading flag and the selected file;
* the presenter grouping (lines 113-121): an insertion-ordered map from
  `profile.search_company || 'Unknown Company'` to the profiles in arrival
  order (JavaScript objects preserve insertion order for such keys; the
  model is an insertion-ordered association list);
* the exporter (lines 151-164, `downloadResults`): `Papa.unparse` of the
  held `ProfileResult` list, and the header-aware `Papa.parse` used on
  upload (delimiter `,`, newline `\r\n`, quote char `"`, `skipEmptyLines`).

JavaScript primitives used by the component (`parseInt`, `||` on numbers and
strings, `String.prototype.trim`) are embedded explicitly below.
-/

/-! ## JavaScript primitives -/

/-- Whitespace recognised by JavaScript's `parseInt` / `trim`
(the common WhiteSpace and LineTerminator code points). -/
def jsWhitespace (c : Char) : Bool :=
  c = ' ' || c = '\t' || c = '\n' || c = '\r' || c = '\x0b' || c = '\x0c' ||
  c = ' ' || c = ' ' || c = ' ' || c = '﻿'

/-- `String.prototype.trim`: strips `jsWhitespace` from both ends. -/
def trimJS (s : String) : String :=
  String.mk (((s.data.dropWhile jsWhitespace).reverse.dropWhile jsWhitespace).reverse)

/-- Digit test for radix 10 or 16 (the two radices `parseInt` can pick
when it is called without an explicit radix). -/
def isDigitBase (base : Nat) (c : Char) : Bool :=
  if base = 16 then
    ('0' ≤ c && c ≤ '9') || ('a' ≤ c && c ≤ 'f') || ('A' ≤ c && c ≤ 'F')
  else
    ('0' ≤ c && c ≤ '9')

/-- Numeric value of a (decimal or hex) digit character. -/
def digitValue (c : Char) : Nat :=
  if '0' ≤ c ∧ c ≤ '9' then c.toNat - 48
  else if 'a' ≤ c ∧ c ≤ 'f' then c.toNat - 87
  else if 'A' ≤ c ∧ c ≤ 'F' then c.toNat - 55
  else 0

/-- Value of a digit string in the given base. -/
def digitsVal (base : Nat) (cs : List Char) : Nat :=
  cs.foldl (fun a c => a * base + digitValue c) 0

/-- JavaScript `parseInt(x)` (no radix argument) applied to an optional
string column value; `none` models an absent column (JS `undefined`, whose
string form `"undefined"` parses to `NaN`).  Returns `none` for `NaN`.
Skips leading whitespace, reads an optional sign, detects a `0x`/`0X` hex
prefix, then takes the longest digit prefix; no digits means `NaN`.
(The float rounding JS applies beyond 2^53 is not modelled; no claim
depends on values that large.) -/
def parseIntJS : Option String → Option Int
  | none => none
  | some s =>
    let cs := s.data.dropWhile jsWhitespace
    let signed : Int × List Char :=
      match cs with
      | '-' :: rest => (-1, rest)
      | '+' :: rest => (1, rest)
      | _ => (1, cs)
    let based : Nat × List Char :=
      match signed.2 with
      | '0' :: 'x' :: rest => (16, rest)
      | '0' :: 'X' :: rest => (16, rest)
      | _ => (10, signed.2)
    let digits := based.2.takeWhile (isDigitBase based.1)
    if digits = [] then none
    else some (signed.1 * (digitsVal based.1 digits : Int))

/-- JavaScript `a || b` for a possibly-absent number `a`:
`undefined`, `NaN` and `0` are falsy, every other number is kept. -/
def jsOrInt (v : Option Int) (d : Int) : Int :=
  match v with
  | none => d
  | some n => if n = 0 then d else n

/-- JavaScript truthiness of a possibly-absent string: `undefined` and the
empty string are falsy; every other string (including whitespace-only
strings) is truthy. -/
def truthyStr : Option String → Bool
  | none => false
  | some s => decide (s ≠ "")

/-! ## Data model (section 3 of the spec, interfaces in `page.tsx`) -/

/-- One profile record of the webhook response (`interface ProfileResult`).
All fields are strings; a field the server omits reaches the component as
the empty value, which is what the grouping's `||` tests for. -/
structure ProfileResult where
  name : String
  title : String
  snippet : String
  url : String
  email : String
  startDate : String
  duration : String
  search_company : String
  search_region : String
  deriving Repr, DecidableEq

/-- The parsed webhook response body (`interface ProcessingResponse`).
Optional fields model JSON keys the server may omit. -/
structure ProcessingResponse where
  status : String
  message : Option String
  totalCompanies : Option Int
  totalProfiles : Option Int
  processedCompanies : Option (List String)
  profiles : Option (List ProfileResult)
  timestamp : Option String
  deriving Repr, DecidableEq

/-- The HTTP response of the single `fetch` call: numeric status plus the
(well-formed) JSON body.  `response.ok` is `200 ≤ status ≤ 299`. -/
structure HttpResponse where
  status : Nat
  body : ProcessingResponse
  deriving Repr, DecidableEq

/-- One row of `Papa.parse(text, {header: true}).data`, restricted to the
three columns the component reads; `none` models a column absent from the
CSV header (JS `undefined`).  Other columns never influence the flow. -/
structure RawRow where
  companyName : Option String
  region : Option String
  maxResults : Option String
  deriving Repr, DecidableEq

/-- A cleaned upload record (the object literal built at lines 80-84). -/
structure UploadRecord where
  companyName : String
  region : String
  maxResults : Int
  deriving Repr, DecidableEq

/-! ## CSV Ingestor (lines 78-88) -/

/-- The filter at line 79: `company['Company Name'] && company['Region']`,
JavaScript truthiness on both columns. -/
def keepRow (r : RawRow) : Bool :=
  truthyStr r.companyName && truthyStr r.region

/-- The map at lines 80-84.  The code only applies this to rows that passed
`keepRow`, where both required columns are present; `getD ""` is a
placeholder for the unreachable absent case. -/
def cleanRow (r : RawRow) : UploadRecord :=
  { companyName := trimJS (r.companyName.getD "")
    region := trimJS (r.region.getD "")
    maxResults := jsOrInt (parseIntJS r.maxResults) 20 }

/-- `cleanedCompanies` (lines 78-84): filter then map. -/
def cleanedCompanies (rows : List RawRow) : List UploadRecord :=
  (rows.filter keepRow).map cleanRow

/-! ## Result Presenter grouping (lines 113-121)

The `grouped` value is a plain JavaScript object used as a map, filled by
`grouped[companyKey].push(profile)` and read back in the render through
`Object.entries`.  Plain objects bring two behaviours the model must keep:

* Key enumeration order: `Object.entries` lists array-index-like keys
  (canonical decimal strings with value below 2^32 - 1, such as `"42"`)
  first, in ascending numeric order, and only then the remaining string
  keys in property-creation order.  The model stores own properties as an
  association list in creation order (`addToGroups`) and reproduces the
  enumeration order in `objectEntries`.
* Inherited properties: when `companyKey` is an own property name of
  `Object.prototype` (`"__proto__"`, `"toString"`, `"constructor"`, ...),
  `grouped[companyKey]` finds the inherited value, which is truthy, so the
  `if (!grouped[companyKey])` initialisation is skipped and
  `grouped[companyKey].push` throws a `TypeError`.  The model returns
  `none` for such a key, aborting the grouping like the thrown exception
  does. -/

/-- The grouping key: `profile.search_company || 'Unknown Company'`
(line 116).  The empty string is the falsy case, covering both an empty
and an absent `search_company`. -/
def groupKey (p : ProfileResult) : String :=
  if p.search_company = "" then "Unknown Company" else p.search_company

/-- The own property names of `Object.prototype` in standard engines: a
grouping key equal to one of these finds a truthy inherited value, so the
array initialisation is skipped and `.push` throws a `TypeError`. -/
def objectProtoKeys : List String :=
  ["constructor", "hasOwnProperty", "isPrototypeOf", "propertyIsEnumerable",
   "toLocaleString", "toString", "valueOf", "__defineGetter__",
   "__defineSetter__", "__lookupGetter__", "__lookupSetter__", "__proto__"]

/-- Numeric value of an all-digit key. -/
def keyNumVal (s : String) : Nat :=
  digitsVal 10 s.data

/-- Is `s` an array-index property key (ECMA `OrdinaryOwnPropertyKeys`):
a canonical decimal string — non-empty, all digits, no leading zero except
`"0"` itself — whose value is below 2^32 - 1. -/
def isArrayIndexKey (s : String) : Bool :=
  (match s.data with
   | [] => false
   | c :: rest => ('0' ≤ c && c ≤ '9')
       && rest.all (fun d => '0' ≤ d && d ≤ '9')
       && (decide (c ≠ '0') || decide (rest = [])))
  && keyNumVal s < 4294967295

/-- Creation of / append to one own property of the `grouped` object
(lines 117-120), for a key that is not an `Object.prototype` name: the
entry for `k` grows at its place, a new key is created after the existing
ones (property-creation order; enumeration reorder happens in
`objectEntries`). -/
def addToGroups (gs : List (String × List ProfileResult)) (k : String)
    (p : ProfileResult) : List (String × List ProfileResult) :=
  match gs with
  | [] => [(k, [p])]
  | (k', l) :: rest =>
    if k' = k then (k', l ++ [p]) :: rest else (k', l) :: addToGroups rest k p

/-- One iteration of the `forEach` loop: once an iteration has thrown
(`none`), nothing further runs; a key inherited from `Object.prototype`
throws; otherwise the own property is created or extended. -/
def groupStep (acc : Option (List (String × List ProfileResult)))
    (p : ProfileResult) : Option (List (String × List ProfileResult)) :=
  match acc with
  | none => none
  | some gs =>
    if groupKey p ∈ objectProtoKeys then none
    else some (addToGroups gs (groupKey p) p)

/-- The `result.profiles.forEach(...)` grouping loop (lines 114-121):
`none` models the loop throwing a `TypeError`. -/
def groupProfiles (ps : List ProfileResult) :
    Option (List (String × List ProfileResult)) :=
  ps.foldl groupStep (some [])

/-- Ascending insertion by numeric key value (distinct array-index keys
have distinct values, so ties cannot arise). -/
def insertEntryByVal (kv : String × List ProfileResult) :
    List (String × List ProfileResult) → List (String × List ProfileResult)
  | [] => [kv]
  | kv2 :: rest =>
    if keyNumVal kv.1 < keyNumVal kv2.1 then kv :: kv2 :: rest
    else kv2 :: insertEntryByVal kv rest

/-- Sort entries ascending by numeric key value. -/
def sortEntriesByVal : List (String × List ProfileResult) →
    List (String × List ProfileResult)
  | [] => []
  | kv :: rest => insertEntryByVal kv (sortEntriesByVal rest)

/-- `Object.entries(grouped)` (used by the render at lines 305 and 321):
array-index keys first in ascending numeric order, then the other keys in
creation order. -/
def objectEntries (gs : List (String × List ProfileResult)) :
    List (String × List ProfileResult) :=
  sortEntriesByVal (gs.filter (fun kv => isArrayIndexKey kv.1)) ++
    gs.filter (fun kv => !isArrayIndexKey kv.1)

/-- Statement-side mirror of `insertEntryByVal` on bare keys. -/
def insertKeyByVal (k : String) : List String → List String
  | [] => [k]
  | k2 :: rest =>
    if keyNumVal k < keyNumVal k2 then k :: k2 :: rest
    else k2 :: insertKeyByVal k rest

/-- Statement-side mirror of `sortEntriesByVal` on bare keys. -/
def sortKeysByVal : List String → List String
  | [] => []
  | k :: rest => insertKeyByVal k (sortKeysByVal rest)

/-- The `TypeError` message V8 raises for
`grouped[companyKey].push(...)` when the inherited value is not an array
(the exact text is engine-specific; no claim depends on it). -/
def protoTypeErrMsg : String :=
  "grouped[companyKey].push is not a function"

/-! ## Submit flow (`handleUpload`, lines 59-149) -/

/-- The message kinds of the `message` state. -/
inductive MsgType
  | success
  | error
  | info
  deriving Repr, DecidableEq

/-- The `message` state value. -/
structure UIMessage where
  text : String
  type : MsgType
  deriving Repr, DecidableEq

/-- The `processingStats` state record.  Its `processingTime` field is the
wall-clock string measured with `Date.now()`; real time is outside the
embedding and the field is omitted. -/
structure Stats where
  totalCompanies : Int
  totalProfiles : Int
  processedCompanies : List String
  deriving Repr, DecidableEq

/-- The component state at the end of a submission: selected file (name),
message slot, loading flag, result list, summary record, grouped map. -/
structure UIState where
  file : Option String
  message : Option UIMessage
  isLoading : Bool
  results : List ProfileResult
  processingStats : Option Stats
  groupedResults : List (String × List ProfileResult)
  deriving Repr, DecidableEq

/-- The message thrown at line 87 when no row survives the filter. -/
def noValidRowsMsg : String :=
  "No valid rows found in the CSV. Make sure each row includes \"Company Name\" and \"Region\"."

/-- The message thrown at line 105 for a non-2xx HTTP status (template
string interpolating `response.status`). -/
def httpErrorMsg (status : Nat) : String :=
  String.mk ("HTTP error! status: ".data ++ (toString status).data)

/-- `result.message || 'Processing failed'` (line 137): the server message
when present and non-empty, the generic fallback otherwise. -/
def processingFailMsg (m : Option String) : String :=
  match m with
  | none => "Processing failed"
  | some t => if t = "" then "Processing failed" else t

/-- The catch block's `err.message || 'Failed to process file'`
(line 141). -/
def catchMsg (t : String) : String :=
  if t = "" then "Failed to process file" else t

/-- Template-string form of a possibly-absent JS number
(`undefined` prints as `"undefined"`). -/
def jsNumStr : Option Int → String
  | none => "undefined"
  | some n => toString n

/-- The success message (lines 132-135). -/
def successMsg (r : ProcessingResponse) : String :=
  String.mk ("🎉 Success! Found ".data ++ (jsNumStr r.totalProfiles).data ++
    " profiles across ".data ++
    (toString (r.processedCompanies.getD []).length).data ++ " companies".data)

/-- The state every error path ends in: the catch block fills the message
slot with `type: 'error'`, and the finally block (lines 144-148) resets the
loading flag and clears the selected file; results, stats and grouped map
keep the empty values set at submission start (lines 64-66). -/
def errUIState (t : String) : UIState :=
  { file := none
    message := some ⟨t, MsgType.error⟩
    isLoading := false
    results := []
    processingStats := none
    groupedResults := [] }

/-- The state the success branch (lines 110-135) leaves behind after the
`finally` block. -/
def successUIState (r : ProcessingResponse)
    (grouped : List (String × List ProfileResult)) : UIState :=
  { file := none
    message := some ⟨successMsg r, MsgType.success⟩
    isLoading := false
    results := r.profiles.getD []
    processingStats := some
      ⟨jsOrInt r.totalCompanies 0, jsOrInt r.totalProfiles 0,
       r.processedCompanies.getD []⟩
    groupedResults := grouped }

/-- The whole submit flow for a selected file whose parsed rows are `rows`,
when the single `fetch` call would give `resp` (a well-formed JSON body;
network failures and malformed JSON are outside the embedding).  Returns
the state after the `finally` block together with a flag telling whether
the webhook call was issued.  When the grouping loop throws (an
`Object.prototype` key), the `set...` calls after it never run, so the
cleared values from submission start survive and the catch block shows the
`TypeError` message. -/
def handleUpload (rows : List RawRow) (resp : HttpResponse) : UIState × Bool :=
  if (cleanedCompanies rows).isEmpty then
    (errUIState (catchMsg noValidRowsMsg), false)
  else if ¬ (200 ≤ resp.status ∧ resp.status ≤ 299) then
    (errUIState (catchMsg (httpErrorMsg resp.status)), true)
  else if resp.body.status = "success" ∧ resp.body.profiles.isSome then
    match groupProfiles (resp.body.profiles.getD []) with
    | none => (errUIState (catchMsg protoTypeErrMsg), true)
    | some grouped => (successUIState resp.body grouped, true)
  else
    (errUIState (catchMsg (processingFailMsg resp.body.message)), true)

/-! ## CSV text layer (`Papa.unparse`, lines 151-164, and `Papa.parse`,
lines 72-75)

`Papa.unparse` with the default config joins rows with `\r\n` and fields
with `,`, quoting a field (with `"` doubled inside) whenever it contains
the quote char, the delimiter, a line break (including the JS line
separators U+2028/U+2029) or has a leading or trailing space.

`Papa.parse` with `{header: true, skipEmptyLines: true}` auto-detects the
delimiter and the newline; on any text `Papa.unparse` produces those
resolve to `,` and `\r\n`, which the model fixes.  The parser is a
character state machine: a quote opens a quoted field only at field start,
`""` inside quotes is a literal quote, and rows consisting of one empty
field are skipped. -/

/-- Characters that force quoting in `Papa.unparse`
(`BAD_DELIMITERS` plus the delimiter). -/
def specialChar (c : Char) : Bool :=
  c = '"' || c = ',' || c = '\r' || c = '\n' || c = ' ' || c = ' '

/-- Is the first character a space? -/
def headIsSpace : List Char → Bool
  | [] => false
  | c :: _ => c = ' '

/-- `Papa.unparse`'s quoting test for one field. -/
def needsQuotes (s : String) : Bool :=
  s.data.any specialChar || headIsSpace s.data || headIsSpace s.data.reverse

/-- Double every quote character (the `""` escape). -/
def doubleQuotes : List Char → List Char
  | [] => []
  | c :: rest => if c = '"' then '"' :: '"' :: doubleQuotes rest
                 else c :: doubleQuotes rest

/-- One serialized field. -/
def escapeFieldChars (s : String) : List Char :=
  if needsQuotes s then '"' :: (doubleQuotes s.data ++ ['"']) else s.data

/-- One serialized row: fields joined with `,`. -/
def rowChars : List String → List Char
  | [] => []
  | [f] => escapeFieldChars f
  | f :: fs => escapeFieldChars f ++ ',' :: rowChars fs

/-- Serialized rows joined with `\r\n` (no trailing newline). -/
def unparseChars : List (List String) → List Char
  | [] => []
  | [r] => rowChars r
  | r :: rs => rowChars r ++ '\r' :: '\n' :: unparseChars rs

/-- `Papa.unparse` on a rectangular array of string fields. -/
def unparse (rows : List (List String)) : String :=
  String.mk (unparseChars rows)

/-- Mode of the CSV parsing state machine. -/
inductive CSVMode
  | fieldStart
  | inField
  | inQuotes
  | afterQuote
  deriving Repr, DecidableEq

/-- The CSV reading loop: current input, mode, current field, current row,
rows already read.  `fieldStart` is the only place a quote opens a quoted
field; inside quotes `""` is a literal quote; `\r\n` ends a row.  At end of
input the pending field and row are emitted (a trailing `[""]` row is
removed afterwards by the empty-line filter, matching `Papa.parse` with
`skipEmptyLines: true`).  A character after a closing quote other than a
delimiter or newline is malformed input that `Papa.parse` reports as an
error and stuffs into the field; the model appends it to the field (such
text is never produced by `unparse`). -/
def runCSV (cs : List Char) (mode : CSVMode) (cur : List Char) (row : List String)
    (acc : List (List String)) : List (List String) :=
  match cs with
  | [] => acc ++ [row ++ [String.mk cur]]
  | c :: rest =>
    match mode with
    | CSVMode.inQuotes =>
      if c = '"' then
        if rest.head? = some '"' then
          runCSV rest.tail CSVMode.inQuotes (cur ++ ['"']) row acc
        else runCSV rest CSVMode.afterQuote cur row acc
      else runCSV rest CSVMode.inQuotes (cur ++ [c]) row acc
    | CSVMode.afterQuote =>
      if c = ',' then runCSV rest CSVMode.fieldStart [] (row ++ [String.mk cur]) acc
      else if c = '\r' ∧ rest.head? = some '\n' then
        runCSV rest.tail CSVMode.fieldStart [] [] (acc ++ [row ++ [String.mk cur]])
      else runCSV rest CSVMode.inField (cur ++ [c]) row acc
    | CSVMode.fieldStart =>
      if c = '"' then runCSV rest CSVMode.inQuotes [] row acc
      else if c = ',' then runCSV rest CSVMode.fieldStart [] (row ++ [String.mk cur]) acc
      else if c = '\r' ∧ rest.head? = some '\n' then
        runCSV rest.tail CSVMode.fieldStart [] [] (acc ++ [row ++ [String.mk cur]])
      else runCSV rest CSVMode.inField (cur ++ [c]) row acc
    | CSVMode.inField =>
      if c = ',' then runCSV rest CSVMode.fieldStart [] (row ++ [String.mk cur]) acc
      else if c = '\r' ∧ rest.head? = some '\n' then
        runCSV rest.tail CSVMode.fieldStart [] [] (acc ++ [row ++ [String.mk cur]])
      else runCSV rest CSVMode.inField (cur ++ [c]) row acc
termination_by cs.length
decreasing_by
  all_goals simp_wf
  all_goals omega

/-- `skipEmptyLines: true`: a parsed row whose only content is one empty
field is dropped. -/
def skipEmptyRows (rows : List (List String)) : List (List String) :=
  rows.filter (fun r => decide (r ≠ [""]))

/-- `Papa.parse` at the row level (fields as strings, before the header
mapping). -/
def parseCSV (text : String) : List (List String) :=
  skipEmptyRows (runCSV text.data CSVMode.fieldStart [] [] [])

/-- The header `Papa.unparse` writes for a `ProfileResult` array: the keys
of the first object, in declaration order. -/
def profileHeader : List String :=
  ["name", "title", "snippet", "url", "email", "startDate", "duration",
   "search_company", "search_region"]

/-- The field values of one profile, in header order. -/
def profileFields (p : ProfileResult) : List String :=
  [p.name, p.title, p.snippet, p.url, p.email, p.startDate, p.duration,
   p.search_company, p.search_region]

/-- `Papa.unparse(results)` (line 154). -/
def unparseProfiles (ps : List ProfileResult) : String :=
  unparse (profileHeader :: ps.map profileFields)

/-- Reading one named column out of a header-mapped record. -/
def lookupField (r : List (String × String)) (k : String) : String :=
  (((r.find? (fun kv => kv.1 == k)).map Prod.snd).getD "")

/-- Rebuilding a `ProfileResult` from a header-mapped record. -/
def profileOfRecord (r : List (String × String)) : ProfileResult :=
  { name := lookupField r "name"
    title := lookupField r "title"
    snippet := lookupField r "snippet"
    url := lookupField r "url"
    email := lookupField r "email"
    startDate := lookupField r "startDate"
    duration := lookupField r "duration"
    search_company := lookupField r "search_company"
    search_region := lookupField r "search_region" }

/-- `Papa.parse` with `header: true` read back as profiles: the first row
is the header, each later row is keyed by it. -/
def parseProfiles (text : String) : List ProfileResult :=
  match parseCSV text with
  | [] => []
  | header :: rows => rows.map (fun r => profileOfRecord (header.zip r))

/-! ## Statement-side definitions

These follow the words of the spec sentences under scrutiny and are
compared against the code-side definitions above. -/

/-- Substring containment, for "message contains ...". -/
def containsText (needle hay : String) : Prop :=
  ∃ pre post, hay.data = pre ++ needle.data ++ post

/-- Spec side: a required column that is present and non-empty. -/
def specPresent : Option String → Bool
  | none => false
  | some s => decide (s ≠ "")

/-- Spec side (amended C2): keep a row iff both required columns are
present and non-empty (before any trimming). -/
def specKeep (r : RawRow) : Bool :=
  specPresent r.companyName && specPresent r.region

/-- Spec side (amended C1): the parsed leading integer when it exists and
is non-zero (negative values included), else the default 20. -/
def specMaxResults (v : Option String) : Int :=
  if parseIntJS v = none ∨ parseIntJS v = some 0 then 20
  else (parseIntJS v).getD 20

/-- Spec side (C8): the server-supplied message when non-empty, the
generic fallback otherwise. -/
def specFailMsg (m : Option String) : String :=
  match m with
  | none => "Processing failed"
  | some t => if t = "" then "Processing failed" else t

/-- Spec side (C4): the distinct values of a list in first-seen order. -/
def firstSeen : List String → List String
  | [] => []
  | k :: ks => k :: (firstSeen ks).filter (fun k2 => decide (k2 ≠ k))

/-! ## Concrete fixtures used by counterexamples and witnesses -/

/-- A CSV row with both required columns valid. -/
def acmeRow : RawRow := ⟨some "Acme", some "US", none⟩

/-- A profile whose `search_company` is `"Acme"`. -/
def acmeProfile : ProfileResult :=
  ⟨"Jane Doe", "Engineer", "snippet", "https://example.test", "jane@acme.test",
   "2020", "3y", "Acme", "US"⟩

/-- A profile with every field empty (in particular `search_company`). -/
def blankProfile : ProfileResult := ⟨"", "", "", "", "", "", "", "", ""⟩

/-- A profile whose `search_company` is an ordinary string key. -/
def zetaProfile : ProfileResult :=
  ⟨"Max", "Analyst", "s", "u", "m@zeta.test", "2021", "1y", "Zeta", "US"⟩

/-- A profile whose `search_company` is an array-index-like key. -/
def numProfile : ProfileResult :=
  ⟨"Ada", "Founder", "s", "u", "a@42.test", "2019", "5y", "42", "US"⟩

/-- A profile whose `search_company` is an `Object.prototype` name. -/
def protoProfile : ProfileResult :=
  ⟨"Eve", "CTO", "s", "u", "e@p.test", "2018", "6y", "__proto__", "US"⟩

/-- A server body carrying only `status: "success"` and the one-profile
list (no `totalProfiles`, no other fields). -/
def c6Body : ProcessingResponse :=
  ⟨"success", none, none, none, none, some [acmeProfile], none⟩

/-- The same body with `totalProfiles: 1` supplied. -/
def c6BodyWithTotal : ProcessingResponse :=
  ⟨"success", none, none, some 1, none, some [acmeProfile], none⟩

/-- A generic failure body. -/
def failBody : ProcessingResponse :=
  ⟨"error", some "boom", none, none, none, none, none⟩

/-! # Theorems -/

/-! ## Shared lemmas -/

/-- The code's truthiness filter coincides with "present and non-empty". -/
theorem keepRow_eq_specKeep (r : RawRow) : keepRow r = specKeep r := by
  unfold keepRow specKeep truthyStr specPresent
  cases r.companyName <;> cases r.region <;> rfl

/-- `parseInt(v) || 20` computes the spec-side amended description. -/
theorem jsOr20_eq_specMaxResults (v : Option String) :
    jsOrInt (parseIntJS v) 20 = specMaxResults v := by
  unfold jsOrInt specMaxResults
  rcases hp : parseIntJS v with _ | n
  · simp
  · by_cases hn : n = 0 <;> simp [hn]

/-- `err.message || 'Failed to process file'` keeps a non-empty message. -/
theorem catchMsg_eq_of_ne (t : String) (h : t ≠ "") : catchMsg t = t :=
  if_neg h

/-- The processing-failure message the catch block displays is exactly the
spec-side description (server message when non-empty, fallback otherwise). -/
theorem catch_processingFailMsg (m : Option String) :
    catchMsg (processingFailMsg m) = specFailMsg m := by
  unfold catchMsg processingFailMsg specFailMsg
  cases m with
  | none => simp
  | some t => by_cases ht : t = "" <;> simp [ht]

/-- Branch lemma: empty cleaned list means validation failure, no call. -/
theorem handleUpload_empty (rows : List RawRow) (resp : HttpResponse)
    (h : cleanedCompanies rows = []) :
    handleUpload rows resp = (errUIState (catchMsg noValidRowsMsg), false) := by
  unfold handleUpload
  rw [h]
  rfl

/-- Branch lemma: non-2xx status means transport failure. -/
theorem handleUpload_http (rows : List RawRow) (resp : HttpResponse)
    (h1 : cleanedCompanies rows ≠ [])
    (h2 : ¬ (200 ≤ resp.status ∧ resp.status ≤ 299)) :
    handleUpload rows resp = (errUIState (catchMsg (httpErrorMsg resp.status)), true) := by
  unfold handleUpload
  have hA : ¬ ((cleanedCompanies rows).isEmpty = true) := by
    simp only [List.isEmpty_iff]
    exact h1
  rw [if_neg hA, if_pos h2]

/-- Branch lemma: 2xx status and a non-success body mean processing failure. -/
theorem handleUpload_badBody (rows : List RawRow) (resp : HttpResponse)
    (h1 : cleanedCompanies rows ≠ [])
    (h2 : 200 ≤ resp.status ∧ resp.status ≤ 299)
    (h3 : ¬ (resp.body.status = "success" ∧ resp.body.profiles.isSome = true)) :
    handleUpload rows resp =
      (errUIState (catchMsg (processingFailMsg resp.body.message)), true) := by
  unfold handleUpload
  have hA : ¬ ((cleanedCompanies rows).isEmpty = true) := by
    simp only [List.isEmpty_iff]
    exact h1
  rw [if_neg hA, if_neg (not_not_intro h2), if_neg h3]

/-- Branch lemma: 2xx status and a success body reach the success state. -/
theorem handleUpload_success (rows : List RawRow) (resp : HttpResponse)
    (h1 : cleanedCompanies rows ≠ [])
    (h2 : 200 ≤ resp.status ∧ resp.status ≤ 299)
    (h3 : resp.body.status = "success" ∧ resp.body.profiles.isSome = true)
    (grouped : List (String × List ProfileResult))
    (h4 : groupProfiles (resp.body.profiles.getD []) = some grouped) :
    handleUpload rows resp = (successUIState resp.body grouped, true) := by
  unfold handleUpload
  have hA : ¬ ((cleanedCompanies rows).isEmpty = true) := by
    simp only [List.isEmpty_iff]
    exact h1
  rw [if_neg hA, if_neg (not_not_intro h2), if_pos h3, h4]

/-! ## C1 — maxResults of kept rows -/

/-- C1 as written is false: a negative `Max Results` value is truthy for
`||`, so `parseInt('-5') || 20` is `-5`, not the claimed default 20.  The
row `{Company Name: "Acme", Region: "US", Max Results: "-5"}` is kept and
produces `maxResults = -5`. -/
theorem C1_counterexample :
    (cleanedCompanies [⟨some "Acme", some "US", some "-5"⟩]).map UploadRecord.maxResults
        = [-5] ∧ ((-5 : Int) = 20 → False) :=
  ⟨by decide, by decide⟩

/-- C1 amended: for every raw CSV row kept by the ingestor, the resulting
record's `maxResults` equals the JS `parseInt` of the `Max Results` column
when that parse succeeds with a non-zero value (negative values are kept
as-is), and 20 when the column is absent, unparseable, or parses to 0. -/
theorem C1_maxResults (rows : List RawRow) (rec : UploadRecord)
    (h : rec ∈ cleanedCompanies rows) :
    ∃ raw ∈ rows, keepRow raw = true ∧
      rec.maxResults = specMaxResults raw.maxResults := by
  unfold cleanedCompanies at h
  rcases List.mem_map.mp h with ⟨raw, hraw, hrec⟩
  rcases List.mem_filter.mp hraw with ⟨hmem, hkeep⟩
  refine ⟨raw, hmem, hkeep, ?_⟩
  rw [← hrec]
  show (cleanRow raw).maxResults = specMaxResults raw.maxResults
  unfold cleanRow
  exact jsOr20_eq_specMaxResults raw.maxResults

/-- Witness for `C1_maxResults` at a concrete kept row. -/
theorem C1_maxResults_witness :
    ((⟨"Acme", "US", -5⟩ : UploadRecord) ∈
        cleanedCompanies [⟨some "Acme", some "US", some "-5"⟩]) ∧
    ∃ raw ∈ [(⟨some "Acme", some "US", some "-5"⟩ : RawRow)], keepRow raw = true ∧
      (⟨"Acme", "US", -5⟩ : UploadRecord).maxResults = specMaxResults raw.maxResults :=
  ⟨by decide, C1_maxResults _ _ (by decide)⟩

/-! ## C2 — the non-empty-after-trimming invariant -/

/-- C2 as written is false: a whitespace-only `Company Name` is truthy, so
the row is NOT dropped, and trimming then leaves an empty `companyName` in
the produced record. -/
theorem C2_counterexample :
    (cleanedCompanies [⟨some "   ", some "US", none⟩]).map UploadRecord.companyName
      = [""] := by
  decide

/-- C2 amended: a raw row is dropped exactly when `Company Name` or
`Region` is absent or the empty string (whitespace-only values are kept);
every produced record is the trim-and-parse image of such a kept row. -/
theorem C2_keptRows (rows : List RawRow) :
    cleanedCompanies rows = (rows.filter specKeep).map cleanRow ∧
    ∀ rec ∈ cleanedCompanies rows, ∃ raw ∈ rows, specKeep raw = true ∧
      rec = cleanRow raw := by
  have hfilter : rows.filter keepRow = rows.filter specKeep :=
    List.filter_congr (fun r _ => keepRow_eq_specKeep r)
  constructor
  · unfold cleanedCompanies
    rw [hfilter]
  · intro rec hrec
    unfold cleanedCompanies at hrec
    rcases List.mem_map.mp hrec with ⟨raw, hraw, hrec2⟩
    rcases List.mem_filter.mp hraw with ⟨hmem, hkeep⟩
    exact ⟨raw, hmem, (keepRow_eq_specKeep raw) ▸ hkeep, hrec2.symm⟩

/-! ## C3 — empty filtered set: validation failure, no network call -/

/-- C3 confirmed: when no row passes the required-columns filter, the flow
ends with an error message containing "No valid rows found" and the
webhook call is never issued. -/
theorem C3_noValidRows (rows : List RawRow) (resp : HttpResponse)
    (h : ∀ r ∈ rows, keepRow r = false) :
    (handleUpload rows resp).2 = false ∧
    ∃ t, (handleUpload rows resp).1.message = some ⟨t, MsgType.error⟩ ∧
      containsText "No valid rows found" t := by
  have hempty : cleanedCompanies rows = [] := by
    unfold cleanedCompanies
    have : rows.filter keepRow = [] := by
      apply List.filter_eq_nil_iff.mpr
      intro r hr
      simp [h r hr]
    rw [this]
    rfl
  rw [handleUpload_empty rows resp hempty]
  refine ⟨rfl, catchMsg noValidRowsMsg, rfl, ?_⟩
  have : catchMsg noValidRowsMsg = noValidRowsMsg := by decide
  rw [this]
  exact ⟨[],
    " in the CSV. Make sure each row includes \"Company Name\" and \"Region\".".data,
    by decide⟩

/-- Witness for `C3_noValidRows`: one row with an empty `Company Name`. -/
theorem C3_noValidRows_witness :
    (∀ r ∈ [(⟨some "", some "US", none⟩ : RawRow)], keepRow r = false) ∧
    ((handleUpload [⟨some "", some "US", none⟩] ⟨200, failBody⟩).2 = false ∧
      ∃ t, (handleUpload [⟨some "", some "US", none⟩] ⟨200, failBody⟩).1.message
          = some ⟨t, MsgType.error⟩ ∧ containsText "No valid rows found" t) :=
  ⟨by decide, C3_noValidRows _ _ (by decide)⟩

/-! ## C6 — scenario: success body with one Acme profile only -/

/-- C6 as written is false: when the body carries only `status: "success"`
and the one-profile list (no `totalProfiles` field), the presenter does
show one group "Acme" with that one row, but the displayed summary's
`totalProfiles` is `result.totalProfiles || 0 = 0`, not 1. -/
theorem C6_counterexample :
    (handleUpload [acmeRow] ⟨200, c6Body⟩).1.groupedResults
        = [("Acme", [acmeProfile])] ∧
    ((handleUpload [acmeRow] ⟨200, c6Body⟩).1.processingStats).map Stats.totalProfiles
        = some 0 ∧
    ¬ (((handleUpload [acmeRow] ⟨200, c6Body⟩).1.processingStats).map Stats.totalProfiles
        = some 1) :=
  ⟨by decide, by decide, by decide⟩

/-- C6 amended: for that response the presenter shows one group "Acme"
with one row, and the displayed summary's `totalProfiles` is the server's
`totalProfiles` field defaulted to 0 — hence 0 when the body carries only
the profile list, and 1 when the server also sends `totalProfiles: 1`. -/
theorem C6_scenario :
    ((handleUpload [acmeRow] ⟨200, c6Body⟩).1.groupedResults
        = [("Acme", [acmeProfile])] ∧
      ((handleUpload [acmeRow] ⟨200, c6Body⟩).1.processingStats).map Stats.totalProfiles
        = some 0) ∧
    ((handleUpload [acmeRow] ⟨200, c6BodyWithTotal⟩).1.groupedResults
        = [("Acme", [acmeProfile])] ∧
      ((handleUpload [acmeRow] ⟨200, c6BodyWithTotal⟩).1.processingStats).map
          Stats.totalProfiles = some 1) :=
  ⟨⟨by decide, by decide⟩, ⟨by decide, by decide⟩⟩

/-! ## C7 — non-2xx status: error with the status code, state reset -/

/-- C7 confirmed: a non-2xx response makes the flow fail with an error
message containing the numeric status code, and afterwards the loading
flag is false and the selected file is cleared. -/
theorem C7_httpError (rows : List RawRow) (resp : HttpResponse)
    (h1 : cleanedCompanies rows ≠ [])
    (h2 : ¬ (200 ≤ resp.status ∧ resp.status ≤ 299)) :
    (handleUpload rows resp).1.isLoading = false ∧
    (handleUpload rows resp).1.file = none ∧
    ∃ t, (handleUpload rows resp).1.message = some ⟨t, MsgType.error⟩ ∧
      containsText (toString resp.status) t := by
  rw [handleUpload_http rows resp h1 h2]
  have hne : httpErrorMsg resp.status ≠ "" := by
    intro hmk
    have : ("HTTP error! status: ".data ++ (toString resp.status).data) = [] :=
      congrArg String.data hmk
    simp at this
  refine ⟨rfl, rfl, catchMsg (httpErrorMsg resp.status), rfl, ?_⟩
  rw [catchMsg_eq_of_ne _ hne]
  refine ⟨"HTTP error! status: ".data, [], ?_⟩
  show "HTTP error! status: ".data ++ (toString resp.status).data
      = "HTTP error! status: ".data ++ (toString resp.status).data ++ []
  rw [List.append_nil]

/-- Witness for `C7_httpError` at HTTP 500. -/
theorem C7_httpError_witness :
    (cleanedCompanies [acmeRow] ≠ []) ∧
    (¬ (200 ≤ 500 ∧ 500 ≤ 299)) ∧
    ((handleUpload [acmeRow] ⟨500, failBody⟩).1.isLoading = false ∧
      (handleUpload [acmeRow] ⟨500, failBody⟩).1.file = none ∧
      ∃ t, (handleUpload [acmeRow] ⟨500, failBody⟩).1.message
          = some ⟨t, MsgType.error⟩ ∧ containsText (toString 500) t) :=
  ⟨by decide, by decide, C7_httpError _ _ (by decide) (by decide)⟩

/-! ## C8 — 2xx but non-success body: server message or fallback -/

/-- C8 confirmed: on a well-formed 2xx response whose `status` is not
"success" or whose `profiles` field is absent, the flow fails with the
server-supplied message when it is non-empty and with the fallback
"Processing failed" otherwise. -/
theorem C8_processingError (rows : List RawRow) (resp : HttpResponse)
    (h1 : cleanedCompanies rows ≠ [])
    (h2 : 200 ≤ resp.status ∧ resp.status ≤ 299)
    (h3 : resp.body.status ≠ "success" ∨ resp.body.profiles = none) :
    (handleUpload rows resp).1.message
      = some ⟨specFailMsg resp.body.message, MsgType.error⟩ := by
  have h3' : ¬ (resp.body.status = "success" ∧ resp.body.profiles.isSome = true) := by
    rintro ⟨hs, hp⟩
    rcases h3 with h | h
    · exact h hs
    · rw [h] at hp
      simp at hp
  rw [handleUpload_badBody rows resp h1 h2 h3']
  simp only [errUIState, catch_processingFailMsg]

/-- Witness for `C8_processingError`: status 200, body
`{status: "error", message: "boom"}`. -/
theorem C8_processingError_witness :
    (cleanedCompanies [acmeRow] ≠ []) ∧
    (200 ≤ 200 ∧ 200 ≤ 299) ∧
    ((⟨200, failBody⟩ : HttpResponse).body.status ≠ "success" ∨
      (⟨200, failBody⟩ : HttpResponse).body.profiles = none) ∧
    (handleUpload [acmeRow] ⟨200, failBody⟩).1.message
      = some ⟨specFailMsg failBody.message, MsgType.error⟩ :=
  ⟨by decide, by decide, by decide,
    C8_processingError _ _ (by decide) (by decide) (by decide)⟩

/-! ## C9 — all-valid input: one record per row, in order -/

/-- C9 confirmed: when every row has a present, non-empty `Company Name`
and `Region`, the ingestor keeps every row, in order, producing exactly
one record per data row. -/
theorem C9_allValid (rows : List RawRow)
    (h : ∀ r ∈ rows, specKeep r = true) :
    cleanedCompanies rows = rows.map cleanRow ∧
    (cleanedCompanies rows).length = rows.length := by
  have hf : rows.filter keepRow = rows := by
    apply List.filter_eq_self.mpr
    intro r hr
    rw [keepRow_eq_specKeep]
    exact h r hr
  constructor
  · unfold cleanedCompanies
    rw [hf]
  · unfold cleanedCompanies
    rw [hf, List.length_map]

/-- Witness for `C9_allValid` on a two-row input. -/
theorem C9_allValid_witness :
    (∀ r ∈ [acmeRow, (⟨some "Globex", some "EU", some "7"⟩ : RawRow)],
        specKeep r = true) ∧
    (cleanedCompanies [acmeRow, ⟨some "Globex", some "EU", some "7"⟩]
        = [acmeRow, (⟨some "Globex", some "EU", some "7"⟩ : RawRow)].map cleanRow ∧
      (cleanedCompanies [acmeRow, ⟨some "Globex", some "EU", some "7"⟩]).length
        = [acmeRow, (⟨some "Globex", some "EU", some "7"⟩ : RawRow)].length) :=
  ⟨by decide, C9_allValid _ (by decide)⟩

/-! ## C10 — the finally block always resets loading and the file -/

/-- C10 confirmed: every completed submission — success, validation
failure, transport failure or processing failure — ends with the loading
flag false and the selected file cleared. -/
theorem C10_finallyReset (rows : List RawRow) (resp : HttpResponse) :
    (handleUpload rows resp).1.isLoading = false ∧
    (handleUpload rows resp).1.file = none := by
  unfold handleUpload
  split
  · exact ⟨rfl, rfl⟩
  · split
    · exact ⟨rfl, rfl⟩
    · split
      · split
        · exact ⟨rfl, rfl⟩
        · exact ⟨rfl, rfl⟩
      · exact ⟨rfl, rfl⟩

/-! ## C4 — grouping lemmas -/

/-- `firstSeen` keeps exactly the members of the list. -/
theorem mem_firstSeen (a : String) (l : List String) : a ∈ firstSeen l ↔ a ∈ l := by
  induction l with
  | nil => simp [firstSeen]
  | cons b l ih =>
    simp only [firstSeen, List.mem_cons, List.mem_filter, decide_eq_true_eq]
    constructor
    · rintro (rfl | ⟨h1, _⟩)
      · exact Or.inl rfl
      · exact Or.inr (ih.mp h1)
    · rintro (rfl | h)
      · exact Or.inl rfl
      · by_cases hab : a = b
        · exact Or.inl hab
        · exact Or.inr ⟨ih.mpr h, hab⟩

/-- `firstSeen` has no duplicates. -/
theorem firstSeen_nodup (l : List String) : (firstSeen l).Nodup := by
  induction l with
  | nil => simp [firstSeen]
  | cons b l ih =>
    simp only [firstSeen, List.nodup_cons]
    refine ⟨?_, ih.filter _⟩
    intro hmem
    rcases List.mem_filter.mp hmem with ⟨_, hb⟩
    simp at hb

/-- Appending one element to the scanned list extends `firstSeen` exactly
when the element is new. -/
theorem firstSeen_append_singleton (l : List String) (a : String) :
    firstSeen (l ++ [a]) = if a ∈ l then firstSeen l else firstSeen l ++ [a] := by
  induction l with
  | nil => simp [firstSeen]
  | cons b l ih =>
    have hcons : ∀ (x : String) (xs : List String),
        firstSeen (x :: xs) = x :: (firstSeen xs).filter (fun k2 => decide (k2 ≠ x)) :=
      fun x xs => rfl
    rw [List.cons_append, hcons, hcons, ih]
    by_cases hal : a ∈ l
    · rw [if_pos hal, if_pos (List.mem_cons_of_mem b hal)]
    · by_cases hab : a = b
      · rw [if_neg hal,
          if_pos (show a ∈ b :: l by rw [hab]; exact List.mem_cons_self _ _),
          List.filter_append,
          show ([a].filter (fun k2 => decide (k2 ≠ b))) = [] by simp [hab],
          List.append_nil]
      · rw [if_neg hal,
          if_neg (show a ∉ b :: l by
            intro hx
            rcases List.mem_cons.mp hx with hx | hx
            · exact hab hx
            · exact hal hx),
          List.filter_append,
          show ([a].filter (fun k2 => decide (k2 ≠ b))) = [a] by simp [hab],
          List.cons_append]

/-- Inserting under a brand-new key appends a one-element group. -/
theorem addToGroups_of_not_mem (gs : List (String × List ProfileResult))
    (k : String) (p : ProfileResult) (h : k ∉ gs.map Prod.fst) :
    addToGroups gs k p = gs ++ [(k, [p])] := by
  induction gs with
  | nil => rfl
  | cons g gs ih =>
    obtain ⟨k', l⟩ := g
    simp only [List.map_cons, List.mem_cons] at h
    push_neg at h
    obtain ⟨hk, hmem⟩ := h
    simp only [addToGroups, if_neg (fun hc : k' = k => hk (hc.symm)), List.cons_append]
    rw [ih hmem]

/-- Inserting under an existing key leaves the key list unchanged. -/
theorem addToGroups_keys_of_mem (gs : List (String × List ProfileResult))
    (k : String) (p : ProfileResult) (h : k ∈ gs.map Prod.fst) :
    (addToGroups gs k p).map Prod.fst = gs.map Prod.fst := by
  induction gs with
  | nil => simp at h
  | cons g gs ih =>
    obtain ⟨k', l⟩ := g
    by_cases hk : k' = k
    · simp [addToGroups, hk]
    · simp only [List.map_cons, List.mem_cons] at h
      rcases h with h | h
      · exact absurd h.symm hk
      · simp [addToGroups, hk, ih h]

/-- Where a pair in `addToGroups gs k0 p` can come from, when the keys of
`gs` are distinct. -/
theorem addToGroups_mem_cases (gs : List (String × List ProfileResult))
    (k0 : String) (p : ProfileResult) (hnd : (gs.map Prod.fst).Nodup)
    (k : String) (l : List ProfileResult) (h : (k, l) ∈ addToGroups gs k0 p) :
    (k = k0 ∧ k0 ∉ gs.map Prod.fst ∧ l = [p]) ∨
    (k = k0 ∧ ∃ l0, (k0, l0) ∈ gs ∧ l = l0 ++ [p]) ∨
    (k ≠ k0 ∧ (k, l) ∈ gs) := by
  induction gs with
  | nil =>
    simp only [addToGroups, List.mem_singleton, Prod.mk.injEq] at h
    exact Or.inl ⟨h.1, by simp, h.2⟩
  | cons g gs ih =>
    obtain ⟨k', l'⟩ := g
    simp only [List.map_cons, List.nodup_cons] at hnd
    obtain ⟨hk'notin, hndtail⟩ := hnd
    by_cases hk : k' = k0
    · have hunfold : addToGroups ((k', l') :: gs) k0 p = (k', l' ++ [p]) :: gs := by
        simp [addToGroups, hk]
      rw [hunfold] at h
      rcases List.mem_cons.mp h with heq | hmem
      · have hk1 : k = k' := congrArg Prod.fst heq
        have hl1 : l = l' ++ [p] := congrArg Prod.snd heq
        refine Or.inr (Or.inl ⟨hk1.trans hk, l', ?_, hl1⟩)
        rw [← hk]
        exact List.mem_cons_self _ _
      · refine Or.inr (Or.inr ⟨?_, List.mem_cons_of_mem _ hmem⟩)
        intro hkk0
        apply hk'notin
        have hkk' : k' = k := hk.trans hkk0.symm
        rw [hkk']
        exact List.mem_map.mpr ⟨(k, l), hmem, rfl⟩
    · have hunfold : addToGroups ((k', l') :: gs) k0 p
          = (k', l') :: addToGroups gs k0 p := by
        simp [addToGroups, hk]
      rw [hunfold] at h
      rcases List.mem_cons.mp h with heq | hmem
      · have hk1 : k = k' := congrArg Prod.fst heq
        have hl1 : l = l' := congrArg Prod.snd heq
        refine Or.inr (Or.inr ⟨?_, ?_⟩)
        · rw [hk1]
          exact hk
        · rw [hk1, hl1]
          exact List.mem_cons_self _ _
      · rcases ih hndtail hmem with ⟨hA, hB, hC⟩ | ⟨hA, l0, hl0, hC⟩ | ⟨hA, hB⟩
        · refine Or.inl ⟨hA, ?_, hC⟩
          simp only [List.map_cons, List.mem_cons]
          rintro (hx | hx)
          · exact hk hx.symm
          · exact hB hx
        · exact Or.inr (Or.inl ⟨hA, l0, List.mem_cons_of_mem _ hl0, hC⟩)
        · exact Or.inr (Or.inr ⟨hA, List.mem_cons_of_mem _ hB⟩)

/-- One grouping step preserves the two invariants: the key list is
`firstSeen` of the keys scanned so far, and every group holds exactly the
scanned profiles with that key, in arrival order. -/
theorem addToGroups_step (seen : List ProfileResult)
    (acc : List (String × List ProfileResult)) (p : ProfileResult)
    (hkeys : acc.map Prod.fst = firstSeen (seen.map groupKey))
    (hgroups : ∀ k l, (k, l) ∈ acc →
      l = seen.filter (fun q => decide (groupKey q = k))) :
    ((addToGroups acc (groupKey p) p).map Prod.fst
        = firstSeen ((seen ++ [p]).map groupKey)) ∧
    (∀ k l, (k, l) ∈ addToGroups acc (groupKey p) p →
      l = (seen ++ [p]).filter (fun q => decide (groupKey q = k))) := by
  have hnd : (acc.map Prod.fst).Nodup := by
    rw [hkeys]
    exact firstSeen_nodup _
  have hmemiff : groupKey p ∈ acc.map Prod.fst ↔ groupKey p ∈ seen.map groupKey := by
    rw [hkeys]
    exact mem_firstSeen _ _
  constructor
  · have hm : (seen ++ [p]).map groupKey = seen.map groupKey ++ [groupKey p] := by
      simp
    rw [hm, firstSeen_append_singleton]
    by_cases hin : groupKey p ∈ seen.map groupKey
    · rw [if_pos hin, addToGroups_keys_of_mem _ _ _ (hmemiff.mpr hin), hkeys]
    · rw [if_neg hin, addToGroups_of_not_mem _ _ _ (fun hc => hin (hmemiff.mp hc))]
      rw [List.map_append, hkeys]
      rfl
  · intro k l hmem
    rcases addToGroups_mem_cases acc (groupKey p) p hnd k l hmem with
      ⟨rfl, hnotin, rfl⟩ | ⟨rfl, l0, hl0, rfl⟩ | ⟨hne, hmem'⟩
    · rw [List.filter_append]
      have hseen : seen.filter (fun q => decide (groupKey q = groupKey p)) = [] := by
        apply List.filter_eq_nil_iff.mpr
        intro q hq
        simp only [decide_eq_true_eq]
        intro hqk
        exact (hmemiff.not.mp hnotin) (List.mem_map.mpr ⟨q, hq, hqk⟩)
      rw [hseen]
      simp
    · rw [List.filter_append, ← hgroups _ _ hl0]
      simp
    · rw [List.filter_append, ← hgroups _ _ hmem']
      have : [p].filter (fun q => decide (groupKey q = k)) = [] := by
        simp [Ne.symm hne]
      rw [this, List.append_nil]

/-- The grouping fold keeps the invariants along any profile list. -/
theorem groupFold_inv (ps : List ProfileResult) :
    ∀ (seen : List ProfileResult) (acc : List (String × List ProfileResult)),
    acc.map Prod.fst = firstSeen (seen.map groupKey) →
    (∀ k l, (k, l) ∈ acc → l = seen.filter (fun q => decide (groupKey q = k))) →
    ((ps.foldl (fun gs p => addToGroups gs (groupKey p) p) acc).map Prod.fst
        = firstSeen ((seen ++ ps).map groupKey)) ∧
    (∀ k l, (k, l) ∈ ps.foldl (fun gs p => addToGroups gs (groupKey p) p) acc →
      l = (seen ++ ps).filter (fun q => decide (groupKey q = k))) := by
  induction ps with
  | nil =>
    intro seen acc hkeys hgroups
    simpa using ⟨hkeys, hgroups⟩
  | cons p ps ih =>
    intro seen acc hkeys hgroups
    have hstep := addToGroups_step seen acc p hkeys hgroups
    have := ih (seen ++ [p]) (addToGroups acc (groupKey p) p) hstep.1 hstep.2
    simpa [List.append_assoc] using this

/-- Once an iteration has thrown, the rest of the loop never runs. -/
theorem groupFold_none (ps : List ProfileResult) :
    ps.foldl groupStep none = none := by
  induction ps with
  | nil => rfl
  | cons p rest ih =>
    rw [List.foldl_cons]
    exact ih

/-- When no key is inherited from `Object.prototype`, the guarded loop is
the pure own-property fold. -/
theorem groupFold_some (ps : List ProfileResult) :
    ∀ gs, (∀ p ∈ ps, groupKey p ∉ objectProtoKeys) →
    ps.foldl groupStep (some gs)
      = some (ps.foldl (fun acc p => addToGroups acc (groupKey p) p) gs) := by
  induction ps with
  | nil =>
    intro gs h
    rfl
  | cons p rest ih =>
    intro gs h
    rw [List.foldl_cons, List.foldl_cons,
      show groupStep (some gs) p = some (addToGroups gs (groupKey p) p) from by
        simp [groupStep, h p (List.mem_cons_self _ _)]]
    exact ih _ (fun x hx => h x (List.mem_cons_of_mem _ hx))

/-- A key inherited from `Object.prototype` anywhere in the list makes the
loop throw. -/
theorem groupFold_bad (ps : List ProfileResult) :
    ∀ gs, (∃ p ∈ ps, groupKey p ∈ objectProtoKeys) →
    ps.foldl groupStep (some gs) = none := by
  induction ps with
  | nil =>
    intro gs h
    simp at h
  | cons p rest ih =>
    intro gs h
    rw [List.foldl_cons]
    by_cases hp : groupKey p ∈ objectProtoKeys
    · rw [show groupStep (some gs) p = none from by simp [groupStep, hp]]
      exact groupFold_none rest
    · rw [show groupStep (some gs) p = some (addToGroups gs (groupKey p) p) from by
        simp [groupStep, hp]]
      apply ih
      rcases h with ⟨q, hq, hqk⟩
      rcases List.mem_cons.mp hq with rfl | hq2
      · exact absurd hqk hp
      · exact ⟨q, hq2, hqk⟩

/-- Ascending insertion only rearranges. -/
theorem insertEntry_perm (kv : String × List ProfileResult)
    (l : List (String × List ProfileResult)) :
    List.Perm (insertEntryByVal kv l) (kv :: l) := by
  induction l with
  | nil => rfl
  | cons kv2 rest ih =>
    by_cases hlt : keyNumVal kv.1 < keyNumVal kv2.1
    · rw [show insertEntryByVal kv (kv2 :: rest) = kv :: kv2 :: rest from by
        simp [insertEntryByVal, hlt]]
    · rw [show insertEntryByVal kv (kv2 :: rest) = kv2 :: insertEntryByVal kv rest from by
        simp [insertEntryByVal, hlt]]
      exact (ih.cons kv2).trans (List.Perm.swap kv kv2 rest)

/-- Sorting by numeric key value only rearranges. -/
theorem sortEntries_perm (l : List (String × List ProfileResult)) :
    List.Perm (sortEntriesByVal l) l := by
  induction l with
  | nil => rfl
  | cons kv rest ih =>
    rw [show sortEntriesByVal (kv :: rest) = insertEntryByVal kv (sortEntriesByVal rest)
      from rfl]
    exact (insertEntry_perm kv (sortEntriesByVal rest)).trans (ih.cons kv)

/-- `Object.entries` enumerates exactly the own properties. -/
theorem objectEntries_perm (gs : List (String × List ProfileResult)) :
    List.Perm (objectEntries gs) gs := by
  unfold objectEntries
  exact ((sortEntries_perm _).append_right _).trans
    (List.filter_append_perm (fun kv => isArrayIndexKey kv.1) gs)

/-- Taking keys commutes with filtering on the key. -/
theorem map_fst_filter (q : String → Bool) (gs : List (String × List ProfileResult)) :
    (gs.filter (fun kv => q kv.1)).map Prod.fst = (gs.map Prod.fst).filter q := by
  induction gs with
  | nil => rfl
  | cons kv rest ih =>
    simp only [List.filter_cons, List.map_cons]
    by_cases hq : q kv.1 = true
    · rw [if_pos hq, if_pos hq, List.map_cons, ih]
    · rw [if_neg hq, if_neg hq, ih]

/-- Taking keys commutes with ascending insertion. -/
theorem map_fst_insertEntry (kv : String × List ProfileResult)
    (l : List (String × List ProfileResult)) :
    (insertEntryByVal kv l).map Prod.fst = insertKeyByVal kv.1 (l.map Prod.fst) := by
  induction l with
  | nil => rfl
  | cons kv2 rest ih =>
    by_cases hlt : keyNumVal kv.1 < keyNumVal kv2.1
    · simp [insertEntryByVal, insertKeyByVal, hlt]
    · simp [insertEntryByVal, insertKeyByVal, hlt, ih]

/-- Taking keys commutes with the sort. -/
theorem map_fst_sortEntries (l : List (String × List ProfileResult)) :
    (sortEntriesByVal l).map Prod.fst = sortKeysByVal (l.map Prod.fst) := by
  induction l with
  | nil => rfl
  | cons kv rest ih =>
    rw [show sortEntriesByVal (kv :: rest) = insertEntryByVal kv (sortEntriesByVal rest)
      from rfl, map_fst_insertEntry, ih]
    rfl

/-- C4 as written is false of the program on three counts, shown at
concrete inputs: (1) for profiles with `search_company` "Zeta" then "42",
`Object.entries` lists the array-index-like key "42" first, not the
first-seen order ["Zeta", "42"]; (2) an empty `search_company` is grouped
under "Unknown Company", not the claimed sentinel "Unknown" and not the
field value; (3) a `search_company` equal to "__proto__" finds the
inherited prototype, so the grouping loop throws a `TypeError` and
produces no mapping at all. -/
theorem C4_counterexample :
    ((groupProfiles [zetaProfile, numProfile]).map
        (fun gs => (objectEntries gs).map Prod.fst) = some ["42", "Zeta"] ∧
      (["42", "Zeta"] = ["Zeta", "42"] → False)) ∧
    (groupProfiles [blankProfile] = some [("Unknown Company", [blankProfile])] ∧
      ("Unknown Company" = "Unknown" → False) ∧
      ("Unknown Company" = blankProfile.search_company → False)) ∧
    groupProfiles [protoProfile] = none :=
  ⟨⟨by decide, by decide⟩, ⟨by decide, by decide, by decide⟩, by decide⟩

/-- C4 amended: the grouping key is `search_company` when non-empty and
the sentinel "Unknown Company" when it is empty or absent.  When any key
is an own property name of `Object.prototype`, the grouping loop throws
and no mapping is produced.  Otherwise the grouped object holds exactly
the distinct keys of the profile list, without duplicates, enumerated by
`Object.entries` with array-index-like keys first in ascending numeric
order and then the remaining keys in first-seen order, and each group is
the original sequence restricted to the profiles with that key, in
original order. -/
theorem C4_grouping (ps : List ProfileResult) :
    ((∃ p ∈ ps, groupKey p ∈ objectProtoKeys) → groupProfiles ps = none) ∧
    ((∀ p ∈ ps, groupKey p ∉ objectProtoKeys) →
      ∃ gs, groupProfiles ps = some gs ∧
        (objectEntries gs).map Prod.fst
          = sortKeysByVal ((firstSeen (ps.map groupKey)).filter isArrayIndexKey)
              ++ (firstSeen (ps.map groupKey)).filter (fun k => !isArrayIndexKey k) ∧
        ((objectEntries gs).map Prod.fst).Nodup ∧
        (∀ k, k ∈ (objectEntries gs).map Prod.fst ↔ k ∈ ps.map groupKey) ∧
        (∀ k l, (k, l) ∈ objectEntries gs →
          l = ps.filter (fun q => decide (groupKey q = k)))) := by
  constructor
  · intro hbad
    exact groupFold_bad ps [] hbad
  · intro hgood
    have hsome : groupProfiles ps
        = some (ps.foldl (fun acc p => addToGroups acc (groupKey p) p) []) :=
      groupFold_some ps [] hgood
    have h := groupFold_inv ps [] [] (by simp [firstSeen]) (by simp)
    rw [List.nil_append] at h
    refine ⟨ps.foldl (fun acc p => addToGroups acc (groupKey p) p) [], hsome,
      ?_, ?_, ?_, ?_⟩
    · unfold objectEntries
      rw [List.map_append, map_fst_sortEntries, map_fst_filter isArrayIndexKey,
        map_fst_filter (fun k => !isArrayIndexKey k), h.1]
    · have hnd : ((ps.foldl (fun acc p => addToGroups acc (groupKey p) p) []).map
          Prod.fst).Nodup := by
        rw [h.1]
        exact firstSeen_nodup _
      exact ((objectEntries_perm _).map Prod.fst).nodup_iff.mpr hnd
    · intro k
      rw [((objectEntries_perm _).map Prod.fst).mem_iff, h.1]
      exact mem_firstSeen _ _
    · intro k l hmem
      exact h.2 k l ((objectEntries_perm _).mem_iff.mp hmem)

/-! ## C5 — CSV round trip: parser step lemmas -/

/-- A field the exporter leaves unquoted contains no quote, delimiter or
carriage return. -/
theorem needsQuotes_false_spec (s : String) (h : needsQuotes s = false) :
    ∀ c ∈ s.data, c ≠ '"' ∧ c ≠ ',' ∧ c ≠ '\r' := by
  intro c hc
  unfold needsQuotes at h
  have hany : s.data.any specialChar = false := by
    cases hx : s.data.any specialChar
    · rfl
    · rw [hx] at h
      simp at h
  have hsp : specialChar c = false := by
    cases hx : specialChar c
    · rfl
    · have : s.data.any specialChar = true := List.any_eq_true.mpr ⟨c, hc, hx⟩
      rw [this] at hany
      cases hany
  refine ⟨?_, ?_, ?_⟩ <;> intro hc1 <;> rw [hc1] at hsp <;> simp [specialChar] at hsp

/-- End of input: the pending field and row are emitted (in any mode). -/
theorem run_eof (m : CSVMode) (cur : List Char) (row : List String)
    (acc : List (List String)) :
    runCSV [] m cur row acc = acc ++ [row ++ [String.mk cur]] := by
  rw [runCSV.eq_def]

/-- A delimiter outside quotes ends the pending field. -/
theorem run_comma (m : CSVMode) (hm : m ≠ CSVMode.inQuotes) (rest cur : List Char)
    (row : List String) (acc : List (List String)) :
    runCSV (',' :: rest) m cur row acc
      = runCSV rest CSVMode.fieldStart [] (row ++ [String.mk cur]) acc := by
  cases m
  · rw [runCSV.eq_def]
    rfl
  · rw [runCSV.eq_def]
    rfl
  · exact absurd rfl hm
  · rw [runCSV.eq_def]
    rfl

/-- A `\r\n` outside quotes ends the pending field and row. -/
theorem run_newline (m : CSVMode) (hm : m ≠ CSVMode.inQuotes) (rest cur : List Char)
    (row : List String) (acc : List (List String)) :
    runCSV ('\r' :: '\n' :: rest) m cur row acc
      = runCSV rest CSVMode.fieldStart [] [] (acc ++ [row ++ [String.mk cur]]) := by
  cases m
  · rw [runCSV.eq_def]
    rfl
  · rw [runCSV.eq_def]
    rfl
  · exact absurd rfl hm
  · rw [runCSV.eq_def]
    rfl

/-- `""` inside quotes is a literal quote. -/
theorem run_quote_double (rest cur : List Char) (row : List String)
    (acc : List (List String)) :
    runCSV ('"' :: '"' :: rest) CSVMode.inQuotes cur row acc
      = runCSV rest CSVMode.inQuotes (cur ++ ['"']) row acc := by
  rw [runCSV.eq_def]
  rfl

/-- A quote not followed by another quote closes the quoted field. -/
theorem run_quote_close (rest : List Char) (hrest : rest.head? ≠ some '"')
    (cur : List Char) (row : List String) (acc : List (List String)) :
    runCSV ('"' :: rest) CSVMode.inQuotes cur row acc
      = runCSV rest CSVMode.afterQuote cur row acc := by
  rw [runCSV.eq_def]
  dsimp only
  rw [if_pos rfl, if_neg hrest]

/-- Any non-quote character inside quotes is field data. -/
theorem run_quote_data (c : Char) (hc : c ≠ '"') (rest cur : List Char)
    (row : List String) (acc : List (List String)) :
    runCSV (c :: rest) CSVMode.inQuotes cur row acc
      = runCSV rest CSVMode.inQuotes (cur ++ [c]) row acc := by
  rw [runCSV.eq_def]
  dsimp only
  rw [if_neg hc]

/-- A quote at field start opens a quoted field. -/
theorem run_fieldStart_quote (rest cur : List Char) (row : List String)
    (acc : List (List String)) :
    runCSV ('"' :: rest) CSVMode.fieldStart cur row acc
      = runCSV rest CSVMode.inQuotes [] row acc := by
  rw [runCSV.eq_def]
  rfl

/-- An ordinary character at field start begins an unquoted field. -/
theorem run_fieldStart_data (c : Char) (h1 : c ≠ '"') (h2 : c ≠ ',') (h3 : c ≠ '\r')
    (rest cur : List Char) (row : List String) (acc : List (List String)) :
    runCSV (c :: rest) CSVMode.fieldStart cur row acc
      = runCSV rest CSVMode.inField (cur ++ [c]) row acc := by
  rw [runCSV.eq_def]
  dsimp only
  rw [if_neg h1, if_neg h2, if_neg (fun hx => h3 hx.1)]

/-- An ordinary character continues an unquoted field. -/
theorem run_inField_data (c : Char) (h1 : c ≠ ',') (h2 : c ≠ '\r')
    (rest cur : List Char) (row : List String) (acc : List (List String)) :
    runCSV (c :: rest) CSVMode.inField cur row acc
      = runCSV rest CSVMode.inField (cur ++ [c]) row acc := by
  rw [runCSV.eq_def]
  dsimp only
  rw [if_neg h1, if_neg (fun hx => h2 hx.1)]

/-- Consuming a run of ordinary characters inside an unquoted field. -/
theorem run_consume_inField (cs : List Char) (h : ∀ c ∈ cs, c ≠ ',' ∧ c ≠ '\r') :
    ∀ (rest cur : List Char) (row : List String) (acc : List (List String)),
    runCSV (cs ++ rest) CSVMode.inField cur row acc
      = runCSV rest CSVMode.inField (cur ++ cs) row acc := by
  induction cs with
  | nil =>
    intro rest cur row acc
    simp
  | cons c cs ih =>
    intro rest cur row acc
    have hc := h c (List.mem_cons_self _ _)
    rw [List.cons_append, run_inField_data c hc.1 hc.2,
      ih (fun x hx => h x (List.mem_cons_of_mem _ hx)), List.append_assoc]
    rfl

/-- Consuming the quoted body `doubleQuotes cs` followed by the closing
quote lands in `afterQuote` with the original text appended. -/
theorem run_consume_inQuotes (cs : List Char) :
    ∀ (tail : List Char), tail.head? ≠ some '"' →
    ∀ (cur : List Char) (row : List String) (acc : List (List String)),
    runCSV (doubleQuotes cs ++ '"' :: tail) CSVMode.inQuotes cur row acc
      = runCSV tail CSVMode.afterQuote (cur ++ cs) row acc := by
  induction cs with
  | nil =>
    intro tail htail cur row acc
    rw [show doubleQuotes [] = [] from rfl, List.nil_append,
      run_quote_close tail htail, List.append_nil]
  | cons c cs ih =>
    intro tail htail cur row acc
    by_cases hc : c = '"'
    · rw [show doubleQuotes (c :: cs) = '"' :: '"' :: doubleQuotes cs from by
        simp [doubleQuotes, hc]]
      rw [List.cons_append, List.cons_append, run_quote_double,
        ih tail htail (cur ++ ['"']) row acc, List.append_assoc, hc]
      rfl
    · rw [show doubleQuotes (c :: cs) = c :: doubleQuotes cs from by
        simp [doubleQuotes, hc]]
      rw [List.cons_append, run_quote_data c hc, ih tail htail (cur ++ [c]) row acc,
        List.append_assoc]
      rfl

/-- Running one serialized field from field start: some non-quote mode is
reached with exactly the original field text pending. -/
theorem escapeField_run (s : String) (tail : List Char) (htail : tail.head? ≠ some '"')
    (row : List String) (acc : List (List String)) :
    ∃ m cur, m ≠ CSVMode.inQuotes ∧ String.mk cur = s ∧
      runCSV (escapeFieldChars s ++ tail) CSVMode.fieldStart [] row acc
        = runCSV tail m cur row acc := by
  unfold escapeFieldChars
  by_cases hq : needsQuotes s = true
  · rw [if_pos hq]
    refine ⟨CSVMode.afterQuote, s.data, by simp, rfl, ?_⟩
    have hassoc : ('"' :: (doubleQuotes s.data ++ ['"'])) ++ tail
        = '"' :: (doubleQuotes s.data ++ '"' :: tail) := by simp
    rw [hassoc, run_fieldStart_quote, run_consume_inQuotes s.data tail htail [] row acc]
    rfl
  · rw [if_neg hq]
    have hq' : needsQuotes s = false := by
      cases hx : needsQuotes s
      · rfl
      · exact absurd hx hq
    have hchars := needsQuotes_false_spec s hq'
    cases hd : s.data with
    | nil =>
      refine ⟨CSVMode.fieldStart, [], by simp, ?_, ?_⟩
      · rw [show s = String.mk s.data from rfl, hd]
      · rw [List.nil_append]
    | cons c cs =>
      have hcmem : c ∈ s.data := by
        rw [hd]
        exact List.mem_cons_self _ _
      obtain ⟨h1, h2, h3⟩ := hchars c hcmem
      refine ⟨CSVMode.inField, ([] ++ [c]) ++ cs, by simp, ?_, ?_⟩
      · rw [show (([] ++ [c]) ++ cs : List Char) = s.data from by rw [hd]; simp]
      · rw [List.cons_append, run_fieldStart_data c h1 h2 h3,
          run_consume_inField cs
            (fun x hx => ((hchars x (by rw [hd]; exact List.mem_cons_of_mem _ hx)).2))]

/-- Running one serialized row followed by `\r\n`: the row is emitted and
parsing restarts cleanly. -/
theorem rowChars_run_newline (fs : List String) (hfs : fs ≠ []) :
    ∀ (rest : List Char) (row : List String) (acc : List (List String)),
    runCSV (rowChars fs ++ '\r' :: '\n' :: rest) CSVMode.fieldStart [] row acc
      = runCSV rest CSVMode.fieldStart [] [] (acc ++ [row ++ fs]) := by
  induction fs with
  | nil => exact absurd rfl hfs
  | cons f fs ih =>
    intro rest row acc
    cases fs with
    | nil =>
      rw [show rowChars [f] = escapeFieldChars f from rfl]
      obtain ⟨m, cur, hm, hcur, hrun⟩ :=
        escapeField_run f ('\r' :: '\n' :: rest) (by simp) row acc
      rw [hrun, run_newline m hm, hcur]
    | cons f2 fs2 =>
      rw [show rowChars (f :: f2 :: fs2)
            = escapeFieldChars f ++ ',' :: rowChars (f2 :: fs2) from rfl]
      rw [show (escapeFieldChars f ++ ',' :: rowChars (f2 :: fs2))
              ++ '\r' :: '\n' :: rest
            = escapeFieldChars f
              ++ ',' :: (rowChars (f2 :: fs2) ++ '\r' :: '\n' :: rest) from by simp]
      obtain ⟨m, cur, hm, hcur, hrun⟩ :=
        escapeField_run f (',' :: (rowChars (f2 :: fs2) ++ '\r' :: '\n' :: rest))
          (by simp) row acc
      rw [hrun, run_comma m hm, hcur, ih (by simp) rest (row ++ [f]) acc,
        List.append_assoc]
      rfl

/-- Running the final serialized row up to end of input. -/
theorem rowChars_run_eof (fs : List String) (hfs : fs ≠ []) :
    ∀ (row : List String) (acc : List (List String)),
    runCSV (rowChars fs) CSVMode.fieldStart [] row acc = acc ++ [row ++ fs] := by
  induction fs with
  | nil => exact absurd rfl hfs
  | cons f fs ih =>
    intro row acc
    cases fs with
    | nil =>
      rw [show rowChars [f] = escapeFieldChars f from rfl]
      obtain ⟨m, cur, hm, hcur, hrun⟩ :=
        escapeField_run f [] (by simp) row acc
      rw [List.append_nil] at hrun
      rw [hrun, run_eof m, hcur]
    | cons f2 fs2 =>
      rw [show rowChars (f :: f2 :: fs2)
            = escapeFieldChars f ++ ',' :: rowChars (f2 :: fs2) from rfl]
      obtain ⟨m, cur, hm, hcur, hrun⟩ :=
        escapeField_run f (',' :: rowChars (f2 :: fs2)) (by simp) row acc
      rw [hrun, run_comma m hm, hcur, ih (by simp) (row ++ [f]) acc,
        List.append_assoc]
      rfl

/-- Running the whole serialized text appends exactly the original rows. -/
theorem unparseChars_run (rows : List (List String)) (hne : rows ≠ [])
    (hr : ∀ r ∈ rows, r ≠ []) :
    ∀ acc, runCSV (unparseChars rows) CSVMode.fieldStart [] [] acc = acc ++ rows := by
  induction rows with
  | nil => exact absurd rfl hne
  | cons r rs ih =>
    intro acc
    cases rs with
    | nil =>
      rw [show unparseChars [r] = rowChars r from rfl,
        rowChars_run_eof r (hr r (List.mem_cons_self _ _)) [] acc]
      rfl
    | cons r2 rs2 =>
      rw [show unparseChars (r :: r2 :: rs2)
            = rowChars r ++ '\r' :: '\n' :: unparseChars (r2 :: rs2) from rfl]
      rw [rowChars_run_newline r (hr r (List.mem_cons_self _ _)) _ [] acc]
      rw [ih (by simp) (fun x hx => hr x (List.mem_cons_of_mem _ hx)) (acc ++ [[] ++ r])]
      rw [List.append_assoc]
      rfl

/-- Re-parsing `Papa.unparse` output recovers the original rows exactly,
for any non-degenerate table (no empty rows, no rows that serialize to an
empty line). -/
theorem parseCSV_unparse (rows : List (List String)) (hne : rows ≠ [])
    (hr : ∀ r ∈ rows, r ≠ [] ∧ r ≠ [""]) :
    parseCSV (unparse rows) = rows := by
  unfold parseCSV unparse
  rw [show (String.mk (unparseChars rows)).data = unparseChars rows from rfl]
  rw [unparseChars_run rows hne (fun r h => (hr r h).1) []]
  rw [List.nil_append]
  unfold skipEmptyRows
  apply List.filter_eq_self.mpr
  intro r hrr
  simpa using (hr r hrr).2

/-- C5 confirmed: exporting any `ProfileResult` sequence with the CSV
serializer and re-parsing the text with the header-aware parser yields the
original records, field for field. -/
theorem C5_roundTrip (ps : List ProfileResult) :
    parseProfiles (unparseProfiles ps) = ps := by
  unfold parseProfiles unparseProfiles
  rw [parseCSV_unparse (profileHeader :: ps.map profileFields) (by simp) ?hcond]
  case hcond =>
    intro r hrr
    rcases List.mem_cons.mp hrr with rfl | hmem
    · exact ⟨by decide, by decide⟩
    · rcases List.mem_map.mp hmem with ⟨p, _, rfl⟩
      exact ⟨by simp [profileFields], by simp [profileFields]⟩
  show (ps.map profileFields).map (fun r => profileOfRecord (profileHeader.zip r)) = ps
  rw [List.map_map]
  rw [show ((fun r => profileOfRecord (profileHeader.zip r)) ∘ profileFields)
        = id from funext fun p => rfl]
  exact List.map_id ps
